import Mathlib

/-!
Shallow embedding of `src/block_image_encryption.py` (block-based image
scrambler/unscrambler) and verification of the specification's claims.

A pixel buffer (a PIL `Image` in `'RGB'` mode) is modelled as its
dimensions together with a pixel function; a pixel is an opaque cell
(one `Nat` standing for the RGB triple).  `Image.crop` and
`Image.paste` are modelled exactly as PIL implements them for the
boxes the program uses: `crop((l,t,r,b))` yields an `(r-l) × (b-t)`
block reading the source at offset `(l,t)`; `paste(block,(l,t))`
writes the whole block at offset `(l,t)`, clipped at the destination
bounds, regardless of any nominal grid rectangle (PIL performs no
shape check for a 2-tuple box).  Equality of buffers is
pixel-for-pixel over the buffer's domain.
-/

/-- An opaque fixed-size pixel cell (the RGB triple of the source). -/
abbrev Pixel := Nat

/-- A pixel buffer: dimensions plus pixel content.  Only points
`(x, y)` with `x < width`, `y < height` are meaningful. -/
structure Buffer where
  width : Nat
  height : Nat
  pix : Nat → Nat → Pixel

/-- A cropped block: its own size plus pixel content. -/
structure Block where
  w : Nat
  h : Nat
  pix : Nat → Nat → Pixel

instance : Inhabited Block := ⟨⟨0, 0, fun _ _ => 0⟩⟩

/-- `Image.new('RGB', (w, h))`: a blank (black, pixel `0`) buffer. -/
def Buffer.new (w h : Nat) : Buffer := ⟨w, h, fun _ _ => 0⟩

/-- `img.crop((l, t, r, b))`: the `(r-l) × (b-t)` block whose pixel
`(u, v)` is the source pixel `(l+u, t+v)`.  The program only crops
boxes inside the buffer. -/
def Buffer.crop (img : Buffer) (l t r b : Nat) : Block :=
  ⟨r - l, b - t, fun u v => img.pix (l + u) (t + v)⟩

/-- `dst.paste(blk, (l, t))`: writes the whole block at offset
`(l, t)`; pixels outside the destination domain are simply never
read, which models PIL clipping the pasted region at the image
bounds.  No shape check of any kind is performed. -/
def Buffer.paste (dst : Buffer) (blk : Block) (l t : Nat) : Buffer :=
  ⟨dst.width, dst.height, fun x y =>
    if l ≤ x ∧ x < l + blk.w ∧ t ≤ y ∧ y < t + blk.h then
      blk.pix (x - l) (y - t)
    else dst.pix x y⟩

/-- Pixel-for-pixel equality of two buffers on their (common) domain. -/
def Buffer.eqOn (a b : Buffer) : Prop :=
  a.width = b.width ∧ a.height = b.height ∧
    ∀ x < a.width, ∀ y < a.height, a.pix x y = b.pix x y

instance (a b : Buffer) : Decidable (a.eqOn b) := by
  unfold Buffer.eqOn
  exact inferInstance

/-- The error outcomes of the two Python functions.  `zeroDivision`,
`keySizeMismatch` (the length-check early return at lines 126-129),
`indexError` (list indexing out of range) and `valueError` (PIL
`paste(None, (l, t))`, "cannot determine region size") are the
conditions the source can actually reach; `invalidBlockSize` and
`shapeMismatch` are the failure kinds named by the specification's
taxonomy, carried here so claims about them can be stated — the
source never produces them. -/
inductive PyError where
  | zeroDivision
  | keySizeMismatch
  | indexError
  | valueError
  | invalidBlockSize
  | shapeMismatch
deriving DecidableEq

/-- `math.ceil(a / b)` for `a b : Nat`.  For `b = 0` the Python code
raises `ZeroDivisionError`, which the callers below short-circuit
before ever computing this, so the value at `b = 0` (namely `0`) is
irrelevant there; it also makes a negative `block_size` (where Python
gets a non-positive `ceil`, hence empty `range` loops) come out as an
empty grid, matching the source. -/
def ceilDiv (a b : Nat) : Nat := (a + b - 1) / b

/-- `cols = math.ceil(width / block_size)` (lines 23 and 111). -/
def gridCols (img : Buffer) (bs : Nat) : Nat := ceilDiv img.width bs

/-- `rows = math.ceil(height / block_size)` (lines 24 and 112). -/
def gridRows (img : Buffer) (bs : Nat) : Nat := ceilDiv img.height bs

/-- Number of grid cells visited by the nested
`for i in range(rows): for j in range(cols)` loops. -/
def blockCount (img : Buffer) (bs : Nat) : Nat := gridRows img bs * gridCols img bs

/-- `left = j * block_size` for the cell of linear index `g`
(`j = g % cols`; the loops visit `g = i*cols + j` in increasing
order). -/
def blockLeft (bs cols g : Nat) : Nat := g % cols * bs

/-- `top = i * block_size` for the cell of linear index `g`
(`i = g / cols`). -/
def blockTop (bs cols g : Nat) : Nat := g / cols * bs

/-- `right = min((j + 1) * block_size, width)` (lines 32 and 120). -/
def blockRight (w bs cols g : Nat) : Nat := min ((g % cols + 1) * bs) w

/-- `bottom = min((i + 1) * block_size, height)` (lines 33 and 121). -/
def blockBottom (h bs cols g : Nat) : Nat := min ((g / cols + 1) * bs) h

/-- The block cropped at grid cell `g` (lines 30-36 / 118-122). -/
def blockAt (img : Buffer) (bs cols g : Nat) : Block :=
  img.crop (blockLeft bs cols g) (blockTop bs cols g)
    (blockRight img.width bs cols g) (blockBottom img.height bs cols g)

/-- The row-major list of cropped blocks built by the nested loops of
lines 26-37 (scramble) and 114-123 (unscramble): cell `g = i*cols + j`
is appended in increasing order of `g`. -/
def extractBlocks (img : Buffer) (bs : Nat) : List Block :=
  (List.range (blockCount img bs)).map (blockAt img bs (gridCols img bs))

/-- Swap of two list positions, `x[i], x[j] = x[j], x[i]`. -/
def listSwap (l : List α) (i j : Nat) : List α :=
  match l[i]?, l[j]? with
  | some a, some b => (l.set i b).set j a
  | _, _ => l

/-- `random.shuffle(x)` (CPython): `for i in reversed(range(1, len(x))):
j = randbelow(i + 1); x[i], x[j] = x[j], x[i]`.  The stream of random
draws is made an explicit parameter: at step `i = k + 1` the draw is
`rand[k] % (i + 1)`, an arbitrary value of `[0, i+1)` — every possible
sequence of draws corresponds to some `rand`. -/
def pyShuffle (rand : List Nat) (x : List α) : List α :=
  (List.range (x.length - 1)).reverse.foldl
    (fun acc k => listSwap acc (k + 1) (rand.getD k 0 % (k + 2))) x

/-- `permutation = list(range(len(original_blocks)));
random.shuffle(permutation)` (lines 41-42). -/
def scramblePerm (img : Buffer) (bs : Nat) (rand : List Nat) : List Nat :=
  pyShuffle rand (List.range (extractBlocks img bs).length)

/-- The paste loop of lines 49-63: starting from a blank canvas, for
each grid cell `g` (in row-major order) paste
`original_blocks[permutation[g]]` at `(j*block_size, i*block_size)`.
The guard `current_grid_index < len(permutation)` (line 54) is kept;
`permutation[g]` is read with default `0` and `original_blocks[p]`
with the default block — both reads are in range whenever the guard
passes, since the permutation is a shuffle of `range(len(blocks))`. -/
def scrambleImage (img : Buffer) (bs : Nat) (rand : List Nat) : Buffer :=
  let cols := gridCols img bs
  let blocks := extractBlocks img bs
  let perm := scramblePerm img bs rand
  (List.range (blockCount img bs)).foldl
    (fun acc g =>
      if g < perm.length then
        acc.paste (blocks.getD (perm.getD g 0) default)
          (blockLeft bs cols g) (blockTop bs cols g)
      else acc)
    (Buffer.new img.width img.height)

/-- `block_scramble` (lines 7-79), with I/O stripped: the input image
is passed as a buffer, and the saved scrambled image and key file are
returned instead of written.  `block_size = 0` raises
`ZeroDivisionError` at line 23 (caught by the blanket handler: no
output).  A negative `block_size` yields non-positive `cols`/`rows`,
hence empty loops, an empty permutation and a blank output — `Int.toNat`
sends it to `0`, for which `ceilDiv _ 0 = 0` reproduces exactly that
empty grid. -/
def block_scramble (img : Buffer) (bs : Int) (rand : List Nat) :
    Except PyError (Buffer × List Nat) :=
  if bs = 0 then .error .zeroDivision
  else .ok (scrambleImage img bs.toNat rand, scramblePerm img bs.toNat rand)

/-- Lines 132-139: `unscrambled_blocks_ordered = [None] * N`; then for
each `k`, `unscrambled_blocks_ordered[permutation[k]] =
scrambled_blocks[k]`.  A permutation value `≥ N` would raise
`IndexError` in Python (caught by the blanket handler), modelled by
`Except.error .indexError`. -/
def reconstructBlocks (perm : List Nat) (blocks : List Block) :
    Except PyError (List (Option Block)) :=
  (List.range perm.length).foldlM
    (fun acc k =>
      let idx := perm.getD k 0
      if idx < acc.length then .ok (acc.set idx (some (blocks.getD k default)))
      else .error .indexError)
    (List.replicate blocks.length (none : Option Block))

/-- The paste loop of lines 147-155: for each grid cell `g` in
row-major order (the counter `block_idx_counter` equals `g`, both
being incremented once per cell), paste `unscrambled_blocks_ordered[g]`
at `(j*block_size, i*block_size)` under the guard
`block_idx_counter < len(unscrambled_blocks_ordered)`.  Pasting a slot
still holding `None` raises `ValueError` inside PIL ("cannot determine
region size"), caught by the blanket handler: no output. -/
def compositeBlocks (base : Buffer) (recon : List (Option Block))
    (bs cols count : Nat) : Except PyError Buffer :=
  (List.range count).foldlM
    (fun acc g =>
      if g < recon.length then
        match recon.getD g none with
        | some blk => .ok (acc.paste blk (blockLeft bs cols g) (blockTop bs cols g))
        | none => .error .valueError
      else .ok acc)
    base

/-- `block_unscramble` (lines 81-167), with I/O stripped: the
scrambled image and the key's permutation are passed in, the saved
output image is returned.  `block_size = 0` raises `ZeroDivisionError`
at line 111; the length check of lines 126-129 returns with no output
(`keySizeMismatch`); otherwise reconstruction (lines 132-139) and
compositing (lines 141-155) run and the result is saved. -/
def block_unscramble (scrambled : Buffer) (perm : List Nat) (bs : Int) :
    Except PyError Buffer :=
  if bs = 0 then .error .zeroDivision
  else if perm.length ≠ (extractBlocks scrambled bs.toNat).length then
    .error .keySizeMismatch
  else
    reconstructBlocks perm (extractBlocks scrambled bs.toNat) >>= fun recon =>
      compositeBlocks (Buffer.new scrambled.width scrambled.height) recon bs.toNat
        (gridCols scrambled bs.toNat) (blockCount scrambled bs.toNat)

/-- Scramble followed by unscramble of the same buffer, feeding the
key produced by the scramble (and the same block size) back in. -/
def roundTrip (img : Buffer) (bs : Int) (rand : List Nat) :
    Except PyError Buffer :=
  match block_scramble img bs rand with
  | .ok (scr, perm) => block_unscramble scr perm bs
  | .error e => .error e

/-- A concrete 3×1 test buffer with pixels `10, 11, 12`. -/
def tb3 : Buffer := ⟨3, 1, fun x _ => x + 10⟩

/-- A concrete 4×2 test buffer (dimensions divisible by block size 2). -/
def tb4 : Buffer := ⟨4, 2, fun x y => 10 * y + x + 5⟩

/-- The common shape of the two paste loops: fold over a list of grid
cells, pasting block `B g` at the top-left corner of cell `g`. -/
def pasteFold (base : Buffer) (B : Nat → Block) (bs cols : Nat) (L : List Nat) : Buffer :=
  L.foldl (fun acc g => acc.paste (B g) (blockLeft bs cols g) (blockTop bs cols g)) base

/-- The grid cell whose nominal rectangle contains pixel `(x, y)`. -/
def cellOf (bs cols x y : Nat) : Nat := y / bs * cols + x / bs

/-- Pixel `(x, y)` is covered by the region actually written when
block `B g` is pasted at the top-left corner of cell `g`. -/
def pasteCover (B : Nat → Block) (bs cols g x y : Nat) : Prop :=
  blockLeft bs cols g ≤ x ∧ x < blockLeft bs cols g + (B g).w ∧
    blockTop bs cols g ≤ y ∧ y < blockTop bs cols g + (B g).h

instance (B : Nat → Block) (bs cols g x y : Nat) :
    Decidable (pasteCover B bs cols g x y) := by
  unfold pasteCover
  exact inferInstance

/-! ### Arithmetic facts about the ceiling division used for the grid -/

theorem ceilDiv_eq_pred_div_succ {w bs : Nat} (hw : 0 < w) (hb : 0 < bs) :
    ceilDiv w bs = (w - 1) / bs + 1 := by
  unfold ceilDiv
  have h : w + bs - 1 = w - 1 + bs := by omega
  rw [h, Nat.add_div_right _ hb]

theorem le_ceilDiv_mul (w bs : Nat) (hb : 0 < bs) : w ≤ ceilDiv w bs * bs := by
  rcases Nat.eq_zero_or_pos w with hw | hw
  · simp [hw]
  · rw [ceilDiv_eq_pred_div_succ hw hb]
    have h1 := Nat.div_add_mod (w - 1) bs
    have h2 := Nat.mod_lt (w - 1) hb
    calc w = w - 1 + 1 := by omega
      _ ≤ bs * ((w - 1) / bs) + (w - 1) % bs + 1 := by omega
      _ ≤ bs * ((w - 1) / bs) + bs := by omega
      _ = ((w - 1) / bs + 1) * bs := by ring

theorem ceilDiv_pred_mul_lt (w bs : Nat) (hw : 0 < w) (hb : 0 < bs) :
    (ceilDiv w bs - 1) * bs < w := by
  rw [ceilDiv_eq_pred_div_succ hw hb, Nat.add_sub_cancel]
  have := Nat.div_mul_le_self (w - 1) bs
  omega

theorem div_lt_ceilDiv {x w bs : Nat} (hb : 0 < bs) (hx : x < w) :
    x / bs < ceilDiv w bs := by
  rw [Nat.div_lt_iff_lt_mul hb]
  exact Nat.lt_of_lt_of_le hx (le_ceilDiv_mul w bs hb)

theorem ceilDiv_of_dvd {w bs : Nat} (hb : 0 < bs) (h : bs ∣ w) :
    ceilDiv w bs = w / bs := by
  rcases Nat.eq_zero_or_pos w with hw | hw
  · subst hw
    unfold ceilDiv
    rw [Nat.zero_add, Nat.zero_div, Nat.div_eq_of_lt (by omega)]
  · obtain ⟨m, hm⟩ := h
    subst hm
    have hm1 : 0 < m := by
      rcases Nat.eq_zero_or_pos m with h0 | h0
      · subst h0; simp at hw
      · exact h0
    rw [ceilDiv_eq_pred_div_succ hw hb]
    have h1 : bs * m - 1 = bs * (m - 1) + (bs - 1) := by
      cases m with
      | zero => omega
      | succ m => simp only [Nat.succ_sub_one, Nat.mul_succ]; omega
    rw [h1, Nat.mul_add_div hb, Nat.mul_div_cancel_left _ hb,
      Nat.div_eq_of_lt (by omega)]
    omega

theorem ceilDiv_mul_of_dvd {w bs : Nat} (hb : 0 < bs) (h : bs ∣ w) :
    ceilDiv w bs * bs = w := by
  rw [ceilDiv_of_dvd hb h]
  exact Nat.div_mul_cancel h

/-- `x / bs = q` exactly when `x` lies in the `q`-th stripe. -/
theorem div_eq_iff_stripe {bs : Nat} (hb : 0 < bs) (q x : Nat) :
    x / bs = q ↔ q * bs ≤ x ∧ x < (q + 1) * bs := by
  constructor
  · rintro rfl
    refine ⟨Nat.div_mul_le_self x bs, ?_⟩
    have h1 := Nat.div_add_mod x bs
    have h2 := Nat.mod_lt x hb
    calc x = bs * (x / bs) + x % bs := h1.symm
      _ < bs * (x / bs) + bs := by omega
      _ = (x / bs + 1) * bs := by ring
  · rintro ⟨h1, h2⟩
    have ha : q ≤ x / bs := (Nat.le_div_iff_mul_le hb).mpr h1
    have hc : x / bs < q + 1 := (Nat.div_lt_iff_lt_mul hb).mpr h2
    omega

/-! ### The shuffle produces a permutation -/

theorem listSwap_perm [DecidableEq α] (l : List α) (i j : Nat) :
    (listSwap l i j).Perm l := by
  unfold listSwap
  cases hi : l[i]? with
  | none => exact List.Perm.refl l
  | some a =>
    cases hj : l[j]? with
    | none => exact List.Perm.refl l
    | some b =>
      obtain ⟨hi', hia⟩ := List.getElem?_eq_some_iff.mp hi
      obtain ⟨hj', hjb⟩ := List.getElem?_eq_some_iff.mp hj
      rw [List.perm_iff_count]
      intro c
      have hj2 : j < (l.set i b).length := by simpa using hj'
      rw [List.count_set a c _ j hj2, List.count_set b c l i hi']
      have hgs : (l.set i b)[j] = b := by
        rw [List.getElem_set]
        split
        · rfl
        · exact hjb
      rw [hgs, hia]
      have hmema : a ∈ l := hia ▸ List.getElem_mem hi'
      have hmemb : b ∈ l := hjb ▸ List.getElem_mem hj'
      have hca : a = c → 1 ≤ List.count c l := by
        intro h
        exact List.count_pos_iff.mpr (h ▸ hmema)
      have hcb : b = c → 1 ≤ List.count c l := by
        intro h
        exact List.count_pos_iff.mpr (h ▸ hmemb)
      by_cases h1 : a = c <;> by_cases h2 : b = c
      · have hc1 := hca h1
        simp [h1, h2]
        omega
      · have hc1 := hca h1
        simp [h1, h2]
        omega
      · have hc1 := hcb h2
        simp [h1, h2]
      · simp [h1, h2]

theorem foldl_perm_of_step [DecidableEq α] (L : List Nat)
    (step : List α → Nat → List α) (hstep : ∀ acc k, (step acc k).Perm acc) :
    ∀ x : List α, (L.foldl step x).Perm x := by
  induction L with
  | nil => intro x; exact List.Perm.refl x
  | cons k L ih =>
    intro x
    exact (ih (step x k)).trans (hstep x k)

theorem pyShuffle_perm (rand : List Nat) (x : List Nat) :
    (pyShuffle rand x).Perm x := by
  unfold pyShuffle
  exact foldl_perm_of_step _ _ (fun acc k => listSwap_perm acc (k + 1) _) x

/-! ### Structure of the extraction and the scramble fold -/

theorem extractBlocks_length (img : Buffer) (bs : Nat) :
    (extractBlocks img bs).length = blockCount img bs := by
  simp [extractBlocks]

theorem scramblePerm_perm (img : Buffer) (bs : Nat) (rand : List Nat) :
    (scramblePerm img bs rand).Perm (List.range (blockCount img bs)) := by
  unfold scramblePerm
  rw [extractBlocks_length]
  exact pyShuffle_perm rand _

theorem scramblePerm_length (img : Buffer) (bs : Nat) (rand : List Nat) :
    (scramblePerm img bs rand).length = blockCount img bs := by
  have := (scramblePerm_perm img bs rand).length_eq
  simpa using this

theorem scramblePerm_lt (img : Buffer) (bs : Nat) (rand : List Nat) :
    ∀ v ∈ scramblePerm img bs rand, v < blockCount img bs := by
  intro v hv
  have := (scramblePerm_perm img bs rand).mem_iff.mp hv
  simpa using this

theorem scramblePerm_nodup (img : Buffer) (bs : Nat) (rand : List Nat) :
    (scramblePerm img bs rand).Nodup :=
  ((scramblePerm_perm img bs rand).nodup_iff).mpr (List.nodup_range _)

theorem paste_width (dst : Buffer) (blk : Block) (l t : Nat) :
    (dst.paste blk l t).width = dst.width := rfl

theorem paste_height (dst : Buffer) (blk : Block) (l t : Nat) :
    (dst.paste blk l t).height = dst.height := rfl

theorem pasteFold_width (base : Buffer) (B : Nat → Block) (bs cols : Nat)
    (L : List Nat) : (pasteFold base B bs cols L).width = base.width := by
  induction L generalizing base with
  | nil => rfl
  | cons a L ih => rw [pasteFold, List.foldl_cons]; exact ih _

theorem pasteFold_height (base : Buffer) (B : Nat → Block) (bs cols : Nat)
    (L : List Nat) : (pasteFold base B bs cols L).height = base.height := by
  induction L generalizing base with
  | nil => rfl
  | cons a L ih => rw [pasteFold, List.foldl_cons]; exact ih _

theorem foldl_congr_mem {β γ : Type _} (L : List β) (f g : γ → β → γ) (x : γ)
    (h : ∀ acc, ∀ b ∈ L, f acc b = g acc b) : L.foldl f x = L.foldl g x := by
  induction L generalizing x with
  | nil => rfl
  | cons a L ih =>
    rw [List.foldl_cons, List.foldl_cons, h x a (by simp)]
    exact ih _ (fun acc b hb => h acc b (by simp [hb]))

/-- The guard of line 54 always passes (the permutation has exactly
one entry per grid cell), so the scramble paste loop is a plain
`pasteFold` over all grid cells. -/
theorem scrambleImage_eq_pasteFold (img : Buffer) (bs : Nat) (rand : List Nat) :
    scrambleImage img bs rand =
      pasteFold (Buffer.new img.width img.height)
        (fun g => (extractBlocks img bs).getD ((scramblePerm img bs rand).getD g 0) default)
        bs (gridCols img bs) (List.range (blockCount img bs)) := by
  unfold scrambleImage pasteFold
  refine foldl_congr_mem _ _ _ _ ?_
  intro acc g hg
  rw [if_pos]
  rw [scramblePerm_length]
  exact List.mem_range.mp hg

theorem extractBlocks_getD (img : Buffer) (bs p : Nat) :
    (extractBlocks img bs).getD p default =
      if p < blockCount img bs then blockAt img bs (gridCols img bs) p
      else default := by
  unfold extractBlocks
  rcases Nat.lt_or_ge p (blockCount img bs) with h | h
  · rw [if_pos h, List.getD_eq_getElem _ _ (by simpa using h), List.getElem_map,
      List.getElem_range]
  · rw [if_neg (by omega), List.getD_eq_getElem?_getD, List.getElem?_eq_none (by simpa using h)]
    rfl

theorem blockAt_w_le (img : Buffer) (bs cols g : Nat) :
    (blockAt img bs cols g).w ≤ bs := by
  show blockRight img.width bs cols g - blockLeft bs cols g ≤ bs
  unfold blockRight blockLeft
  have h : (g % cols + 1) * bs = g % cols * bs + bs := by ring
  omega

theorem blockAt_h_le (img : Buffer) (bs cols g : Nat) :
    (blockAt img bs cols g).h ≤ bs := by
  show blockBottom img.height bs cols g - blockTop bs cols g ≤ bs
  unfold blockBottom blockTop
  have h : (g / cols + 1) * bs = g / cols * bs + bs := by ring
  omega

theorem extractBlocks_getD_w_le (img : Buffer) (bs p : Nat) (hb : 0 < bs) :
    ((extractBlocks img bs).getD p default).w ≤ bs := by
  rw [extractBlocks_getD]
  split
  · exact blockAt_w_le img bs _ p
  · exact Nat.le_of_lt hb

theorem extractBlocks_getD_h_le (img : Buffer) (bs p : Nat) (hb : 0 < bs) :
    ((extractBlocks img bs).getD p default).h ≤ bs := by
  rw [extractBlocks_getD]
  split
  · exact blockAt_h_le img bs _ p
  · exact Nat.le_of_lt hb

/-! ### Where each paste lands: disjointness and the fold's pixel value -/

/-- A pasted region covering `(x, y)` pins down the cell: the regions
of distinct cells are pairwise disjoint (each lies inside its own
`block_size`-stripe of the grid). -/
theorem pasteCover_unique (B : Nat → Block) {bs cols g x y : Nat} (hb : 0 < bs)
    (hw : (B g).w ≤ bs) (hh : (B g).h ≤ bs)
    (hc : pasteCover B bs cols g x y) : g = cellOf bs cols x y := by
  obtain ⟨h1, h2, h3, h4⟩ := hc
  unfold blockLeft at h1 h2
  unfold blockTop at h3 h4
  have hx : x / bs = g % cols := by
    rw [div_eq_iff_stripe hb]
    constructor
    · exact h1
    · have : (g % cols + 1) * bs = g % cols * bs + bs := by ring
      omega
  have hy : y / bs = g / cols := by
    rw [div_eq_iff_stripe hb]
    constructor
    · exact h3
    · have : (g / cols + 1) * bs = g / cols * bs + bs := by ring
      omega
  have hg := Nat.div_add_mod g cols
  unfold cellOf
  rw [hx, hy, Nat.mul_comm (g / cols) cols]
  omega

/-- The pixel value of a fold of pastes: pixel `(x, y)` holds the
content of the unique cell whose pasted region covers it, if that
cell is in the fold's list, and the base pixel otherwise. -/
theorem pasteFold_pix (bs cols : Nat) (hb : 0 < bs) (B : Nat → Block)
    (hBw : ∀ g, (B g).w ≤ bs) (hBh : ∀ g, (B g).h ≤ bs)
    (L : List Nat) (base : Buffer) (x y : Nat) :
    (pasteFold base B bs cols L).pix x y =
      if cellOf bs cols x y ∈ L ∧ pasteCover B bs cols (cellOf bs cols x y) x y then
        (B (cellOf bs cols x y)).pix (x - blockLeft bs cols (cellOf bs cols x y))
          (y - blockTop bs cols (cellOf bs cols x y))
      else base.pix x y := by
  induction L generalizing base with
  | nil => simp [pasteFold]
  | cons a L ih =>
    rw [pasteFold, List.foldl_cons]
    rw [show (List.foldl (fun acc g => acc.paste (B g) (blockLeft bs cols g) (blockTop bs cols g))
      (base.paste (B a) (blockLeft bs cols a) (blockTop bs cols a)) L) =
      pasteFold (base.paste (B a) (blockLeft bs cols a) (blockTop bs cols a)) B bs cols L from rfl]
    rw [ih]
    have hpaste : ∀ dst : Buffer,
        (dst.paste (B a) (blockLeft bs cols a) (blockTop bs cols a)).pix x y =
          if pasteCover B bs cols a x y then (B a).pix (x - blockLeft bs cols a) (y - blockTop bs cols a)
          else dst.pix x y := by
      intro dst
      rfl
    by_cases hC : pasteCover B bs cols (cellOf bs cols x y) x y
    · by_cases hL : cellOf bs cols x y ∈ L
      · rw [if_pos ⟨hL, hC⟩, if_pos ⟨by simp [hL], hC⟩]
      · rw [if_neg (by tauto), hpaste]
        by_cases ha : a = cellOf bs cols x y
        · subst ha
          rw [if_pos hC, if_pos ⟨by simp, hC⟩]
        · have hnc : ¬ pasteCover B bs cols a x y := by
            intro hcov
            exact ha (pasteCover_unique B hb (hBw a) (hBh a) hcov)
          rw [if_neg hnc, if_neg]
          intro hmem
          rcases List.mem_cons.mp hmem.1 with h | h
          · exact ha h.symm
          · exact hL h
    · rw [if_neg (by tauto), if_neg (by tauto), hpaste, if_neg]
      intro hcov
      have := pasteCover_unique B hb (hBw a) (hBh a) hcov
      rw [this] at hcov
      exact hC hcov

/-! ### Grid-cell arithmetic -/

theorem cell_row_col {i j cols rows : Nat} (hi : i < rows) (hj : j < cols) :
    i * cols + j < rows * cols := by
  calc i * cols + j < i * cols + cols := by omega
    _ = (i + 1) * cols := by ring
    _ ≤ rows * cols := Nat.mul_le_mul_right cols hi

theorem cell_mod {i j cols : Nat} (hj : j < cols) : (i * cols + j) % cols = j := by
  rw [Nat.mul_comm i cols, Nat.mul_add_mod, Nat.mod_eq_of_lt hj]

theorem cell_div {i j cols : Nat} (hj : j < cols) : (i * cols + j) / cols = i := by
  have hc : 0 < cols := by omega
  rw [Nat.mul_comm i cols, Nat.mul_add_div hc, Nat.div_eq_of_lt hj]
  omega

theorem cellOf_lt (img : Buffer) {bs x y : Nat} (hb : 0 < bs)
    (hx : x < img.width) (hy : y < img.height) :
    cellOf bs (gridCols img bs) x y < blockCount img bs :=
  cell_row_col (div_lt_ceilDiv hb hy) (div_lt_ceilDiv hb hx)

theorem cellOf_mod (img : Buffer) {bs x y : Nat} (hb : 0 < bs) (hx : x < img.width) :
    cellOf bs (gridCols img bs) x y % gridCols img bs = x / bs :=
  cell_mod (div_lt_ceilDiv hb hx)

theorem cellOf_div (img : Buffer) {bs x y : Nat} (hb : 0 < bs) (hx : x < img.width) :
    cellOf bs (gridCols img bs) x y / gridCols img bs = y / bs :=
  cell_div (div_lt_ceilDiv hb hx)

theorem div_mul_add_mod (x bs : Nat) : x / bs * bs + x % bs = x := by
  have := Nat.div_add_mod x bs
  have h : x / bs * bs = bs * (x / bs) := Nat.mul_comm _ _
  omega

/-! ### Exact block shapes when the block size divides the dimensions -/

theorem blockAt_w_dvd (img : Buffer) {bs g : Nat} (hb : 0 < bs)
    (hw : bs ∣ img.width) (hg : g % gridCols img bs < gridCols img bs) :
    (blockAt img bs (gridCols img bs) g).w = bs := by
  show blockRight img.width bs (gridCols img bs) g - blockLeft bs (gridCols img bs) g = bs
  unfold blockRight blockLeft
  have h1 : (g % gridCols img bs + 1) * bs ≤ img.width := by
    calc (g % gridCols img bs + 1) * bs ≤ gridCols img bs * bs :=
          Nat.mul_le_mul_right bs (by omega)
      _ = img.width := ceilDiv_mul_of_dvd hb hw
  rw [Nat.min_eq_left h1]
  have h2 : (g % gridCols img bs + 1) * bs = g % gridCols img bs * bs + bs := by ring
  omega

theorem blockAt_h_dvd (img : Buffer) {bs g : Nat} (hb : 0 < bs)
    (hh : bs ∣ img.height) (hg : g / gridCols img bs < gridRows img bs) :
    (blockAt img bs (gridCols img bs) g).h = bs := by
  show blockBottom img.height bs (gridCols img bs) g - blockTop bs (gridCols img bs) g = bs
  unfold blockBottom blockTop
  have h1 : (g / gridCols img bs + 1) * bs ≤ img.height := by
    calc (g / gridCols img bs + 1) * bs ≤ gridRows img bs * bs :=
          Nat.mul_le_mul_right bs (by omega)
      _ = img.height := ceilDiv_mul_of_dvd hb hh
  rw [Nat.min_eq_left h1]
  have h2 : (g / gridCols img bs + 1) * bs = g / gridCols img bs * bs + bs := by ring
  omega

theorem blockAt_pix (img : Buffer) (bs cols g u v : Nat) :
    (blockAt img bs cols g).pix u v =
      img.pix (blockLeft bs cols g + u) (blockTop bs cols g + v) := rfl

theorem mod_lt_of_lt_count {g rows cols : Nat} (hg : g < rows * cols) :
    g % cols < cols := by
  have hc : 0 < cols := by
    rcases Nat.eq_zero_or_pos cols with h | h
    · subst h; omega
    · exact h
  exact Nat.mod_lt g hc

theorem div_lt_of_lt_count {g rows cols : Nat} (hg : g < rows * cols) :
    g / cols < rows := by
  have hc : 0 < cols := by
    rcases Nat.eq_zero_or_pos cols with h | h
    · subst h; omega
    · exact h
  rw [Nat.div_lt_iff_lt_mul hc]
  omega

/-- The pixel of the scrambled image, with divisible dimensions: the
pixel `(x, y)` of cell `g` holds the corresponding pixel of original
block `permutation[g]`. -/
theorem scrambleImage_pix_dvd (img : Buffer) (bs : Nat) (rand : List Nat)
    (hb : 0 < bs) (hw : bs ∣ img.width) (hh : bs ∣ img.height)
    {x y : Nat} (hx : x < img.width) (hy : y < img.height) :
    (scrambleImage img bs rand).pix x y =
      img.pix
        ((scramblePerm img bs rand).getD (cellOf bs (gridCols img bs) x y) 0 % gridCols img bs * bs
          + x % bs)
        ((scramblePerm img bs rand).getD (cellOf bs (gridCols img bs) x y) 0 / gridCols img bs * bs
          + y % bs) := by
  set cols := gridCols img bs with hcols
  set g0 := cellOf bs cols x y with hg0
  set p := (scramblePerm img bs rand).getD g0 0 with hp
  have hg0lt : g0 < blockCount img bs := cellOf_lt img hb hx hy
  have hplt : p < blockCount img bs := by
    have hmem : p ∈ scramblePerm img bs rand := by
      rw [hp, List.getD_eq_getElem _ _ (by rw [scramblePerm_length]; exact hg0lt)]
      exact List.getElem_mem _
    exact scramblePerm_lt img bs rand p hmem
  have hB : (extractBlocks img bs).getD p default = blockAt img bs cols p := by
    rw [extractBlocks_getD, if_pos hplt]
  have hBw : (blockAt img bs cols p).w = bs :=
    blockAt_w_dvd img hb hw (mod_lt_of_lt_count hplt)
  have hBh : (blockAt img bs cols p).h = bs :=
    blockAt_h_dvd img hb hh (div_lt_of_lt_count hplt)
  rw [scrambleImage_eq_pasteFold,
    pasteFold_pix bs cols hb _ (fun g => extractBlocks_getD_w_le img bs _ hb)
      (fun g => extractBlocks_getD_h_le img bs _ hb)]
  rw [← hg0, ← hp]
  have hmodx : g0 % cols = x / bs := cellOf_mod img hb hx
  have hdivy : g0 / cols = y / bs := cellOf_div img hb hx
  have hleft : blockLeft bs cols g0 = x / bs * bs := by
    unfold blockLeft
    rw [hmodx]
  have htop : blockTop bs cols g0 = y / bs * bs := by
    unfold blockTop
    rw [hdivy]
  have hcover : pasteCover
      (fun g => (extractBlocks img bs).getD ((scramblePerm img bs rand).getD g 0) default)
      bs cols g0 x y := by
    refine ⟨?_, ?_, ?_, ?_⟩ <;>
      simp only [← hp, hB, hBw, hBh, hleft, htop]
    · exact Nat.div_mul_le_self x bs
    · have := div_mul_add_mod x bs
      have := Nat.mod_lt x hb
      omega
    · exact Nat.div_mul_le_self y bs
    · have := div_mul_add_mod y bs
      have := Nat.mod_lt y hb
      omega
  rw [if_pos ⟨List.mem_range.mpr hg0lt, hcover⟩]
  simp only [← hp, hB, blockAt_pix]
  have hxoff : x - blockLeft bs cols g0 = x % bs := by
    rw [hleft]
    have := div_mul_add_mod x bs
    omega
  have hyoff : y - blockTop bs cols g0 = y % bs := by
    rw [htop]
    have := div_mul_add_mod y bs
    omega
  rw [hxoff, hyoff]
  rfl

/-! ### The reconstruction loop (lines 132-139) -/

theorem getD_set_self (l : List (Option Block)) (i : Nat) (v : Option Block)
    (h : i < l.length) : (l.set i v).getD i none = v := by
  rw [List.getD_eq_getElem?_getD, List.getElem?_set_self (by simpa using h)]
  rfl

theorem getD_set_ne (l : List (Option Block)) {i g : Nat} (v : Option Block)
    (h : i ≠ g) : (l.set i v).getD g none = l.getD g none := by
  rw [List.getD_eq_getElem?_getD, List.getD_eq_getElem?_getD,
    List.getElem?_set_ne h]

/-- One step of the reconstruction fold. -/
def reconStep (perm : List Nat) (blocks : List Block)
    (acc : List (Option Block)) (k : Nat) : Except PyError (List (Option Block)) :=
  if perm.getD k 0 < acc.length then
    .ok (acc.set (perm.getD k 0) (some (blocks.getD k default)))
  else .error .indexError

theorem reconstructBlocks_eq_fold (perm : List Nat) (blocks : List Block) :
    reconstructBlocks perm blocks =
      (List.range perm.length).foldlM (reconStep perm blocks)
        (List.replicate blocks.length (none : Option Block)) := rfl

theorem recon_fold_ok (perm : List Nat) (blocks : List Block) (L : List Nat)
    (hvals : ∀ k ∈ L, perm.getD k 0 < blocks.length) :
    ∀ acc : List (Option Block), acc.length = blocks.length →
      ∃ r, L.foldlM (reconStep perm blocks) acc = .ok r ∧ r.length = blocks.length := by
  induction L with
  | nil =>
    intro acc hlen
    exact ⟨acc, List.foldlM_nil _ _, hlen⟩
  | cons a L ih =>
    intro acc hlen
    have ha : perm.getD a 0 < acc.length := by
      rw [hlen]
      exact hvals a (by simp)
    obtain ⟨r, hr, hrlen⟩ := ih (fun k hk => hvals k (by simp [hk]))
      (acc.set (perm.getD a 0) (some (blocks.getD a default)))
      (by rw [List.length_set]; exact hlen)
    refine ⟨r, ?_, hrlen⟩
    rw [List.foldlM_cons]
    show (reconStep perm blocks acc a) >>= _ = _
    rw [reconStep, if_pos ha]
    simpa using hr

theorem reconstructBlocks_ok (perm : List Nat) (blocks : List Block)
    (hvals : ∀ k < perm.length, perm.getD k 0 < blocks.length) :
    ∃ r, reconstructBlocks perm blocks = .ok r ∧ r.length = blocks.length := by
  rw [reconstructBlocks_eq_fold]
  exact recon_fold_ok perm blocks _ (fun k hk => hvals k (List.mem_range.mp hk))
    _ (List.length_replicate _ _)

/-- After the reconstruction fold over the index list `L` (no
duplicate indices, permutation injective on them), slot
`permutation[k]` holds block `k` for every `k ∈ L`, and every slot hit
by no `k ∈ L` is unchanged. -/
theorem recon_fold_getD (perm : List Nat) (blocks : List Block)
    (hinj : ∀ k1 k2, k1 < perm.length → k2 < perm.length →
      perm.getD k1 0 = perm.getD k2 0 → k1 = k2)
    (L : List Nat) (hnd : L.Nodup) (hlt : ∀ k ∈ L, k < perm.length) :
    ∀ acc : List (Option Block), acc.length = blocks.length →
    ∀ r, L.foldlM (reconStep perm blocks) acc = .ok r →
      (∀ k ∈ L, r.getD (perm.getD k 0) none = some (blocks.getD k default)) ∧
      (∀ g, (∀ k ∈ L, perm.getD k 0 ≠ g) → r.getD g none = acc.getD g none) := by
  induction L with
  | nil =>
    intro acc hlen r hr
    rw [List.foldlM_nil] at hr
    cases hr
    exact ⟨by simp, fun g _ => rfl⟩
  | cons a L ih =>
    intro acc hlen r hr
    rw [List.foldlM_cons] at hr
    by_cases ha : perm.getD a 0 < acc.length
    · rw [show (reconStep perm blocks acc a) = .ok (acc.set (perm.getD a 0)
        (some (blocks.getD a default))) from by rw [reconStep, if_pos ha]] at hr
      have hr' : L.foldlM (reconStep perm blocks)
          (acc.set (perm.getD a 0) (some (blocks.getD a default))) = .ok r := hr
      obtain ⟨ih1, ih2⟩ := ih hnd.of_cons (fun k hk => hlt k (by simp [hk]))
        _ (by rw [List.length_set]; exact hlen) r hr'
      constructor
      · intro k hk
        rcases List.mem_cons.mp hk with hk | hk
        · subst hk
          have hnot : ∀ k' ∈ L, perm.getD k' 0 ≠ perm.getD k 0 := by
            intro k' hk' heq
            have := hinj k' k (hlt k' (by simp [hk'])) (hlt k (by simp)) heq
            subst this
            exact (List.nodup_cons.mp hnd).1 hk'
          rw [ih2 _ hnot, getD_set_self _ _ _ ha]
        · exact ih1 k hk
      · intro g hg
        rw [ih2 g (fun k hk => hg k (by simp [hk])),
          getD_set_ne _ _ (hg a (by simp))]
    · rw [show (reconStep perm blocks acc a) = .error .indexError from by
        rw [reconStep, if_neg ha]] at hr
      have hr2 : (Except.error PyError.indexError : Except PyError (List (Option Block)))
          = .ok r := hr
      cases hr2

/-! ### The composite loop (lines 147-155) -/

/-- One step of the composite fold. -/
def compStep (recon : List (Option Block)) (bs cols : Nat)
    (acc : Buffer) (g : Nat) : Except PyError Buffer :=
  if g < recon.length then
    match recon.getD g none with
    | some blk => .ok (acc.paste blk (blockLeft bs cols g) (blockTop bs cols g))
    | none => .error .valueError
  else .ok acc

theorem compositeBlocks_eq_fold (base : Buffer) (recon : List (Option Block))
    (bs cols count : Nat) :
    compositeBlocks base recon bs cols count =
      (List.range count).foldlM (compStep recon bs cols) base := rfl

theorem comp_fold_ok (recon : List (Option Block)) (bs cols : Nat) (L : List Nat)
    (hsome : ∀ g ∈ L, (recon.getD g none).isSome) :
    ∀ base : Buffer,
      L.foldlM (compStep recon bs cols) base =
        .ok (pasteFold base (fun g => (recon.getD g none).getD default) bs cols L) := by
  induction L with
  | nil =>
    intro base
    rw [List.foldlM_nil]
    rfl
  | cons a L ih =>
    intro base
    have ha := hsome a (by simp)
    obtain ⟨blk, hblk⟩ := Option.isSome_iff_exists.mp ha
    have halen : a < recon.length := by
      by_contra hcon
      rw [List.getD_eq_default _ _ (by omega)] at hblk
      cases hblk
    rw [List.foldlM_cons,
      show (compStep recon bs cols base a) = .ok (base.paste blk
        (blockLeft bs cols a) (blockTop bs cols a)) from by
        rw [compStep, if_pos halen, hblk]]
    show L.foldlM (compStep recon bs cols) _ = _
    rw [ih (fun g hg => hsome g (by simp [hg]))]
    have hrhs : pasteFold base (fun g => (recon.getD g none).getD default) bs cols (a :: L) =
        pasteFold (base.paste blk (blockLeft bs cols a) (blockTop bs cols a))
          (fun g => (recon.getD g none).getD default) bs cols L := by
      simp only [pasteFold, List.foldl_cons, hblk, Option.getD_some]
    rw [hrhs]

/-! ### Error shapes of the two fold loops -/

theorem recon_fold_error (perm : List Nat) (blocks : List Block) (L : List Nat) :
    ∀ acc e, L.foldlM (reconStep perm blocks) acc = .error e → e = .indexError := by
  induction L with
  | nil =>
    intro acc e h
    rw [List.foldlM_nil] at h
    cases h
  | cons a L ih =>
    intro acc e h
    rw [List.foldlM_cons] at h
    by_cases ha : perm.getD a 0 < acc.length
    · rw [show (reconStep perm blocks acc a) = .ok (acc.set (perm.getD a 0)
        (some (blocks.getD a default))) from by rw [reconStep, if_pos ha]] at h
      exact ih _ e h
    · rw [show (reconStep perm blocks acc a) = .error .indexError from by
        rw [reconStep, if_neg ha]] at h
      have h2 : (Except.error PyError.indexError : Except PyError (List (Option Block)))
          = .error e := h
      cases h2
      rfl

theorem comp_fold_error (recon : List (Option Block)) (bs cols : Nat) (L : List Nat) :
    ∀ base e, L.foldlM (compStep recon bs cols) base = .error e → e = .valueError := by
  induction L with
  | nil =>
    intro base e h
    rw [List.foldlM_nil] at h
    cases h
  | cons a L ih =>
    intro base e h
    rw [List.foldlM_cons] at h
    by_cases ha : a < recon.length
    · cases hblk : recon.getD a none with
      | some blk =>
        rw [show (compStep recon bs cols base a) = .ok (base.paste blk
          (blockLeft bs cols a) (blockTop bs cols a)) from by
            rw [compStep, if_pos ha, hblk]] at h
        exact ih _ e h
      | none =>
        rw [show (compStep recon bs cols base a) = .error .valueError from by
          rw [compStep, if_pos ha, hblk]] at h
        have h2 : (Except.error PyError.valueError : Except PyError Buffer)
            = .error e := h
        cases h2
        rfl
    · rw [show (compStep recon bs cols base a) = .ok base from by
        rw [compStep, if_neg ha]] at h
      exact ih _ e h

/-! ### Assembling the divisible-dimensions round trip -/

theorem default_block_w : (default : Block).w = 0 := rfl

theorem default_block_h : (default : Block).h = 0 := rfl

theorem block_unscramble_pos (scr : Buffer) (perm : List Nat) (bs : Nat) (hb : 0 < bs)
    (hlen : perm.length = (extractBlocks scr bs).length) :
    block_unscramble scr perm (bs : Int) =
      (reconstructBlocks perm (extractBlocks scr bs)) >>= fun recon =>
        compositeBlocks (Buffer.new scr.width scr.height) recon bs
          (gridCols scr bs) (blockCount scr bs) := by
  unfold block_unscramble
  simp only [Int.toNat_natCast, Int.natCast_eq_zero]
  rw [if_neg (by omega), if_neg (by simp [hlen])]

theorem roundtrip_dvd (img : Buffer) (bs : Nat) (rand : List Nat) (hb : 0 < bs)
    (hw : bs ∣ img.width) (hh : bs ∣ img.height) :
    ∃ out, block_unscramble (scrambleImage img bs rand) (scramblePerm img bs rand) (bs : Int)
        = .ok out ∧ out.eqOn img := by
  set scr := scrambleImage img bs rand with hscr
  set perm := scramblePerm img bs rand with hperm
  have hsw : scr.width = img.width := by
    rw [hscr, scrambleImage_eq_pasteFold, pasteFold_width]
    rfl
  have hsh : scr.height = img.height := by
    rw [hscr, scrambleImage_eq_pasteFold, pasteFold_height]
    rfl
  have hgc : gridCols scr bs = gridCols img bs := by
    unfold gridCols
    rw [hsw]
  have hgr : gridRows scr bs = gridRows img bs := by
    unfold gridRows
    rw [hsh]
  have hbc : blockCount scr bs = blockCount img bs := by
    unfold blockCount
    rw [hgc, hgr]
  have hdw : bs ∣ scr.width := hsw ▸ hw
  have hdh : bs ∣ scr.height := hsh ▸ hh
  have hext_len : (extractBlocks scr bs).length = blockCount img bs := by
    rw [extractBlocks_length, hbc]
  have hpl : perm.length = blockCount img bs := scramblePerm_length img bs rand
  have hvals : ∀ k < perm.length, perm.getD k 0 < (extractBlocks scr bs).length := by
    intro k hk
    rw [hext_len]
    have hmem : perm.getD k 0 ∈ perm := by
      rw [List.getD_eq_getElem _ _ hk]
      exact List.getElem_mem _
    exact scramblePerm_lt img bs rand _ hmem
  obtain ⟨recon, hrec, hreclen⟩ := reconstructBlocks_ok perm (extractBlocks scr bs) hvals
  have hnd : perm.Nodup := scramblePerm_nodup img bs rand
  have hinj : ∀ k1 k2, k1 < perm.length → k2 < perm.length →
      perm.getD k1 0 = perm.getD k2 0 → k1 = k2 := by
    intro k1 k2 h1 h2 heq
    rw [List.getD_eq_getElem _ _ h1, List.getD_eq_getElem _ _ h2] at heq
    exact (List.Nodup.getElem_inj_iff hnd).mp heq
  obtain ⟨hfill, _⟩ := recon_fold_getD perm (extractBlocks scr bs) hinj
    (List.range perm.length) (List.nodup_range _) (fun k hk => List.mem_range.mp hk)
    _ (List.length_replicate _ _) recon
    (by rw [← reconstructBlocks_eq_fold]; exact hrec)
  have hsurj : ∀ g < blockCount img bs, ∃ k, k < perm.length ∧ perm.getD k 0 = g := by
    intro g hg
    have hmem : g ∈ perm := by
      refine ((scramblePerm_perm img bs rand).mem_iff).mpr ?_
      exact List.mem_range.mpr hg
    obtain ⟨k, hk, hkg⟩ := List.mem_iff_getElem.mp hmem
    exact ⟨k, hk, by rw [List.getD_eq_getElem _ _ hk]; exact hkg⟩
  have hentry : ∀ g < blockCount img bs, ∃ k, k < perm.length ∧ perm.getD k 0 = g ∧
      recon.getD g none = some ((extractBlocks scr bs).getD k default) := by
    intro g hg
    obtain ⟨k, hk, hkg⟩ := hsurj g hg
    refine ⟨k, hk, hkg, ?_⟩
    have hf := hfill k (List.mem_range.mpr hk)
    rw [hkg] at hf
    exact hf
  have hsome : ∀ g ∈ List.range (blockCount scr bs), (recon.getD g none).isSome := by
    intro g hg
    obtain ⟨k, _, _, hrk⟩ := hentry g (hbc ▸ List.mem_range.mp hg)
    rw [hrk]
    rfl
  have hcomp : compositeBlocks (Buffer.new scr.width scr.height) recon bs
      (gridCols scr bs) (blockCount scr bs) =
      .ok (pasteFold (Buffer.new scr.width scr.height)
        (fun g => (recon.getD g none).getD default) bs (gridCols scr bs)
        (List.range (blockCount scr bs))) := by
    rw [compositeBlocks_eq_fold]
    exact comp_fold_ok recon bs _ _ hsome _
  refine ⟨pasteFold (Buffer.new scr.width scr.height)
    (fun g => (recon.getD g none).getD default) bs (gridCols scr bs)
    (List.range (blockCount scr bs)), ?_, ?_⟩
  · rw [block_unscramble_pos scr perm bs hb (by rw [hext_len, hpl]), hrec]
    exact hcomp
  · have hBw : ∀ g, ((recon.getD g none).getD default).w ≤ bs := by
      intro g
      rcases Nat.lt_or_ge g (blockCount img bs) with hg | hg
      · obtain ⟨k, _, _, hrk⟩ := hentry g hg
        rw [hrk, Option.getD_some]
        exact extractBlocks_getD_w_le scr bs k hb
      · rw [List.getD_eq_default _ _ (by rw [hreclen, hext_len]; exact hg)]
        rw [Option.getD_none, default_block_w]
        omega
    have hBh : ∀ g, ((recon.getD g none).getD default).h ≤ bs := by
      intro g
      rcases Nat.lt_or_ge g (blockCount img bs) with hg | hg
      · obtain ⟨k, _, _, hrk⟩ := hentry g hg
        rw [hrk, Option.getD_some]
        exact extractBlocks_getD_h_le scr bs k hb
      · rw [List.getD_eq_default _ _ (by rw [hreclen, hext_len]; exact hg)]
        rw [Option.getD_none, default_block_h]
        omega
    refine ⟨?_, ?_, ?_⟩
    · rw [pasteFold_width]
      exact hsw
    · rw [pasteFold_height]
      exact hsh
    · intro x hx y hy
      rw [pasteFold_width] at hx
      rw [pasteFold_height] at hy
      rw [hsw] at hx
      rw [hsh] at hy
      rw [pasteFold_pix bs (gridCols scr bs) hb _ hBw hBh]
      have hxs : x < scr.width := by rw [hsw]; exact hx
      have hys : y < scr.height := by rw [hsh]; exact hy
      set g0 := cellOf bs (gridCols scr bs) x y with hg0
      have hg0lt : g0 < blockCount scr bs := cellOf_lt scr hb hxs hys
      obtain ⟨k, hk, hkg0, hrk⟩ := hentry g0 (hbc ▸ hg0lt)
      have hkN : k < blockCount scr bs := by rw [hbc]; rw [hpl] at hk; exact hk
      have hBg0 : (recon.getD g0 none).getD default =
          blockAt scr bs (gridCols scr bs) k := by
        rw [hrk, Option.getD_some, extractBlocks_getD, if_pos (hbc ▸ hkN)]
      have hBg0w : ((recon.getD g0 none).getD default).w = bs := by
        rw [hBg0]
        exact blockAt_w_dvd scr hb hdw (mod_lt_of_lt_count hkN)
      have hBg0h : ((recon.getD g0 none).getD default).h = bs := by
        rw [hBg0]
        exact blockAt_h_dvd scr hb hdh (div_lt_of_lt_count hkN)
      have hmodx : g0 % gridCols scr bs = x / bs := cellOf_mod scr hb hxs
      have hdivy : g0 / gridCols scr bs = y / bs := cellOf_div scr hb hxs
      have hleft : blockLeft bs (gridCols scr bs) g0 = x / bs * bs := by
        unfold blockLeft
        rw [hmodx]
      have htop : blockTop bs (gridCols scr bs) g0 = y / bs * bs := by
        unfold blockTop
        rw [hdivy]
      have hcover : pasteCover (fun g => (recon.getD g none).getD default)
          bs (gridCols scr bs) g0 x y := by
        refine ⟨?_, ?_, ?_, ?_⟩ <;>
          simp only [hBg0w, hBg0h, hleft, htop]
        · exact Nat.div_mul_le_self x bs
        · have := div_mul_add_mod x bs
          have := Nat.mod_lt x hb
          omega
        · exact Nat.div_mul_le_self y bs
        · have := div_mul_add_mod y bs
          have := Nat.mod_lt y hb
          omega
      rw [if_pos ⟨List.mem_range.mpr hg0lt, hcover⟩]
      have hxoff : x - blockLeft bs (gridCols scr bs) g0 = x % bs := by
        rw [hleft]
        have := div_mul_add_mod x bs
        omega
      have hyoff : y - blockTop bs (gridCols scr bs) g0 = y % bs := by
        rw [htop]
        have := div_mul_add_mod y bs
        omega
      rw [hxoff, hyoff, hBg0, blockAt_pix]
      -- the pixel now reads from the scrambled buffer inside block `k`
      set cols := gridCols scr bs with hcolsdef
      have hxv : blockLeft bs cols k + x % bs < img.width := by
        unfold blockLeft
        have h1 : k % cols < cols := mod_lt_of_lt_count hkN
        have h2 : x % bs < bs := Nat.mod_lt x hb
        have h3 : (k % cols + 1) * bs ≤ cols * bs := Nat.mul_le_mul_right bs (by omega)
        have h4 : cols * bs = img.width := by
          show gridCols scr bs * bs = img.width
          unfold gridCols
          rw [hsw]
          exact ceilDiv_mul_of_dvd hb hw
        have h5 : (k % cols + 1) * bs = k % cols * bs + bs := by ring
        omega
      have hyv : blockTop bs cols k + y % bs < img.height := by
        unfold blockTop
        have h1 : k / cols < gridRows scr bs := div_lt_of_lt_count hkN
        have h2 : y % bs < bs := Nat.mod_lt y hb
        have h3 : (k / cols + 1) * bs ≤ gridRows scr bs * bs :=
          Nat.mul_le_mul_right bs (by omega)
        have h4 : gridRows scr bs * bs = img.height := by
          unfold gridRows
          rw [hsh]
          exact ceilDiv_mul_of_dvd hb hh
        have h5 : (k / cols + 1) * bs = k / cols * bs + bs := by ring
        omega
      have hpix := scrambleImage_pix_dvd img bs rand hb hw hh hxv hyv
      rw [← hscr, ← hperm] at hpix
      have hcell : cellOf bs (gridCols img bs) (blockLeft bs cols k + x % bs)
          (blockTop bs cols k + y % bs) = k := by
        unfold cellOf blockLeft blockTop
        have hxd : (k % cols * bs + x % bs) / bs = k % cols := by
          rw [div_eq_iff_stripe hb]
          have h2 : x % bs < bs := Nat.mod_lt x hb
          have h5 : (k % cols + 1) * bs = k % cols * bs + bs := by ring
          omega
        have hyd : (k / cols * bs + y % bs) / bs = k / cols := by
          rw [div_eq_iff_stripe hb]
          have h2 : y % bs < bs := Nat.mod_lt y hb
          have h5 : (k / cols + 1) * bs = k / cols * bs + bs := by ring
          omega
        rw [hxd, hyd, ← hgc]
        have := Nat.div_add_mod k cols
        rw [Nat.mul_comm (k / cols) cols]
        omega
      rw [hcell, hkg0] at hpix
      have hxm : (blockLeft bs cols k + x % bs) % bs = x % bs := by
        unfold blockLeft
        rw [Nat.mul_comm (k % cols) bs, Nat.mul_add_mod,
          Nat.mod_eq_of_lt (Nat.mod_lt x hb)]
      have hym : (blockTop bs cols k + y % bs) % bs = y % bs := by
        unfold blockTop
        rw [Nat.mul_comm (k / cols) bs, Nat.mul_add_mod,
          Nat.mod_eq_of_lt (Nat.mod_lt y hb)]
      rw [hxm, hym] at hpix
      rw [hpix]
      have hgx : g0 % gridCols img bs = x / bs := by rw [← hgc]; exact hmodx
      have hgy : g0 / gridCols img bs = y / bs := by rw [← hgc]; exact hdivy
      rw [hgx, hgy, div_mul_add_mod, div_mul_add_mod]

/-! ### Top-level shapes of the two operations -/

theorem block_scramble_pos (img : Buffer) (bs : Nat) (rand : List Nat) (hb : 0 < bs) :
    block_scramble img (bs : Int) rand =
      .ok (scrambleImage img bs rand, scramblePerm img bs rand) := by
  unfold block_scramble
  rw [if_neg (by rw [Int.natCast_eq_zero]; omega), Int.toNat_natCast]

theorem block_unscramble_nz (scr : Buffer) (perm : List Nat) (bs : Int) (hbs : bs ≠ 0)
    (hlen : perm.length = (extractBlocks scr bs.toNat).length) :
    block_unscramble scr perm bs =
      reconstructBlocks perm (extractBlocks scr bs.toNat) >>= fun recon =>
        compositeBlocks (Buffer.new scr.width scr.height) recon bs.toNat
          (gridCols scr bs.toNat) (blockCount scr bs.toNat) := by
  unfold block_unscramble
  rw [if_neg hbs, if_neg (by simp [hlen])]

theorem blockCount_zero (img : Buffer) : blockCount img 0 = 0 := by
  unfold blockCount gridRows gridCols ceilDiv
  simp

theorem extractBlocks_zero (img : Buffer) : extractBlocks img 0 = [] := by
  unfold extractBlocks
  rw [blockCount_zero]
  rfl

theorem scramblePerm_zero (img : Buffer) (rand : List Nat) :
    scramblePerm img 0 rand = [] := by
  unfold scramblePerm
  rw [extractBlocks_zero]
  rfl

theorem scrambleImage_zero (img : Buffer) (rand : List Nat) :
    scrambleImage img 0 rand = Buffer.new img.width img.height := by
  simp only [scrambleImage, blockCount_zero, List.range_zero, List.foldl_nil]

/-- Every error the unscramble operation can produce is one of the
four conditions actually reachable in the source. -/
theorem block_unscramble_error_cases (scr : Buffer) (perm : List Nat) (bs : Int)
    (e : PyError) (he : block_unscramble scr perm bs = .error e) :
    e = .zeroDivision ∨ e = .keySizeMismatch ∨ e = .indexError ∨ e = .valueError := by
  unfold block_unscramble at he
  by_cases h0 : bs = 0
  · rw [if_pos h0] at he
    cases he
    left
    rfl
  · rw [if_neg h0] at he
    by_cases hl : perm.length ≠ (extractBlocks scr bs.toNat).length
    · rw [if_pos hl] at he
      cases he
      right
      left
      rfl
    · rw [if_neg hl] at he
      cases hr : reconstructBlocks perm (extractBlocks scr bs.toNat) with
      | error e2 =>
        rw [hr] at he
        have he2 : (Except.error e2 : Except PyError Buffer) = .error e := he
        cases he2
        right
        right
        left
        rw [reconstructBlocks_eq_fold] at hr
        exact recon_fold_error perm (extractBlocks scr bs.toNat) _ _ _ hr
      | ok recon =>
        rw [hr] at he
        have he2 : compositeBlocks (Buffer.new scr.width scr.height) recon bs.toNat
            (gridCols scr bs.toNat) (blockCount scr bs.toNat) = .error e := he
        rw [compositeBlocks_eq_fold] at he2
        right
        right
        right
        exact comp_fold_error _ _ _ _ _ _ he2

/-! ### Grid geometry: ceiling division and exact tiling -/

theorem ceilDiv_eq_rat_ceil (w bs : Nat) (hb : 0 < bs) :
    (ceilDiv w bs : Int) = ⌈(w : ℚ) / (bs : ℚ)⌉ := by
  have hbq : (0 : ℚ) < (bs : ℚ) := by exact_mod_cast hb
  rcases Nat.eq_zero_or_pos w with hw | hw
  · subst hw
    have hc0 : ceilDiv 0 bs = 0 := by
      unfold ceilDiv
      rw [Nat.zero_add, Nat.div_eq_of_lt (by omega)]
    rw [hc0]
    simp
  · have h1 : w ≤ ceilDiv w bs * bs := le_ceilDiv_mul w bs hb
    have h2 : (ceilDiv w bs - 1) * bs < w := ceilDiv_pred_mul_lt w bs hw hb
    have hc1 : 1 ≤ ceilDiv w bs := by
      by_contra hc
      have hz : ceilDiv w bs = 0 := by omega
      rw [hz] at h1
      simp at h1
      omega
    rw [eq_comm, Int.ceil_eq_iff]
    constructor
    · have hcast : ((ceilDiv w bs - 1 : Nat) : ℚ) = ((ceilDiv w bs : Int) : ℚ) - 1 := by
        push_cast
        rw [Nat.cast_sub hc1]
        push_cast
        ring
      rw [← hcast, lt_div_iff₀ hbq]
      exact_mod_cast h2
    · rw [div_le_iff₀ hbq]
      push_cast
      exact_mod_cast h1

theorem blockRect_in_bounds (img : Buffer) (bs : Nat) (hb : 0 < bs)
    (hw : 0 < img.width) (hh : 0 < img.height) :
    ∀ g < blockCount img bs,
      blockLeft bs (gridCols img bs) g < blockRight img.width bs (gridCols img bs) g ∧
      blockTop bs (gridCols img bs) g < blockBottom img.height bs (gridCols img bs) g ∧
      blockRight img.width bs (gridCols img bs) g ≤ img.width ∧
      blockBottom img.height bs (gridCols img bs) g ≤ img.height := by
  intro g hg
  have hj : g % gridCols img bs < gridCols img bs := mod_lt_of_lt_count hg
  have hi : g / gridCols img bs < gridRows img bs := div_lt_of_lt_count hg
  refine ⟨?_, ?_, Nat.min_le_right _ _, Nat.min_le_right _ _⟩
  · unfold blockLeft blockRight
    have h1 : g % gridCols img bs * bs < (g % gridCols img bs + 1) * bs := by
      have h : (g % gridCols img bs + 1) * bs = g % gridCols img bs * bs + bs := by ring
      omega
    have h3 : g % gridCols img bs * bs ≤ (gridCols img bs - 1) * bs :=
      Nat.mul_le_mul_right bs (by omega)
    have h4 : (gridCols img bs - 1) * bs < img.width :=
      ceilDiv_pred_mul_lt img.width bs hw hb
    exact lt_min h1 (Nat.lt_of_le_of_lt h3 h4)
  · unfold blockTop blockBottom
    have h1 : g / gridCols img bs * bs < (g / gridCols img bs + 1) * bs := by
      have h : (g / gridCols img bs + 1) * bs = g / gridCols img bs * bs + bs := by ring
      omega
    have h3 : g / gridCols img bs * bs ≤ (gridRows img bs - 1) * bs :=
      Nat.mul_le_mul_right bs (by omega)
    have h4 : (gridRows img bs - 1) * bs < img.height :=
      ceilDiv_pred_mul_lt img.height bs hh hb
    exact lt_min h1 (Nat.lt_of_le_of_lt h3 h4)

theorem blockRect_tiles (img : Buffer) (bs : Nat) (hb : 0 < bs)
    {x y : Nat} (hx : x < img.width) (hy : y < img.height) :
    ∃! g, g < blockCount img bs ∧
      blockLeft bs (gridCols img bs) g ≤ x ∧
      x < blockRight img.width bs (gridCols img bs) g ∧
      blockTop bs (gridCols img bs) g ≤ y ∧
      y < blockBottom img.height bs (gridCols img bs) g := by
  refine ⟨cellOf bs (gridCols img bs) x y,
    ⟨cellOf_lt img hb hx hy, ?_, ?_, ?_, ?_⟩, ?_⟩
  · unfold blockLeft
    rw [cellOf_mod img hb hx]
    exact Nat.div_mul_le_self x bs
  · unfold blockRight
    rw [cellOf_mod img hb hx]
    refine lt_min ?_ hx
    have h1 := div_mul_add_mod x bs
    have h2 := Nat.mod_lt x hb
    have h5 : (x / bs + 1) * bs = x / bs * bs + bs := by ring
    omega
  · unfold blockTop
    rw [cellOf_div img hb hx]
    exact Nat.div_mul_le_self y bs
  · unfold blockBottom
    rw [cellOf_div img hb hx]
    refine lt_min ?_ hy
    have h1 := div_mul_add_mod y bs
    have h2 := Nat.mod_lt y hb
    have h5 : (y / bs + 1) * bs = y / bs * bs + bs := by ring
    omega
  · rintro g ⟨hg, h1, h2, h3, h4⟩
    unfold blockLeft at h1
    unfold blockRight at h2
    unfold blockTop at h3
    unfold blockBottom at h4
    have hxg : x / bs = g % gridCols img bs := by
      rw [div_eq_iff_stripe hb]
      exact ⟨h1, Nat.lt_of_lt_of_le h2 (Nat.min_le_left _ _)⟩
    have hyg : y / bs = g / gridCols img bs := by
      rw [div_eq_iff_stripe hb]
      exact ⟨h3, Nat.lt_of_lt_of_le h4 (Nat.min_le_left _ _)⟩
    unfold cellOf
    rw [hxg, hyg]
    have hdm := Nat.div_add_mod g (gridCols img bs)
    rw [Nat.mul_comm (g / gridCols img bs) (gridCols img bs)]
    omega

/-! ### The claims -/

/-- C1: the claim states that for every buffer and every
`block_size ≥ 1`, unscrambling the scrambled buffer with the key
produced by the scramble returns the original pixel-for-pixel.  The
code violates this on ragged grids: on a 3×1 buffer with pixels
`10, 11, 12`, `block_size = 2` and the shuffle that produces the
permutation `[1, 0]`, the round trip returns `10, 0, 12` — pixel
`(1, 0)` comes back black because the 1×1 ragged block pasted into
the 2×1 cell does not fill it and the clipped part of the full block
is lost.  This theorem evaluates the code at that failing input. -/
theorem C1_roundtrip_fails_on_ragged :
    (block_scramble tb3 2 [0]).map (fun p => p.2) = .ok [1, 0] ∧
    (roundTrip tb3 2 [0]).map (fun out => out.pix 1 0) = .ok 0 ∧
    tb3.pix 1 0 = 11 ∧
    (roundTrip tb3 2 [0]).map (fun out => decide (out.eqOn tb3)) = .ok false :=
  ⟨rfl, rfl, rfl, rfl⟩

/-- C2: scramble places the content of original block
`permutation[g]` at scrambled grid cell `g` (every pixel the paste
writes is the corresponding pixel of original block `permutation[g]`),
and unscramble performs the inverse assignment: the reconstruction
list satisfies `orig[permutation[k]] = scr[k]` for every `k`. -/
theorem C2_assignment_semantics (img : Buffer) (bs : Nat) (rand : List Nat) (hb : 0 < bs) :
    (∀ g < blockCount img bs,
      ∀ u < ((extractBlocks img bs).getD ((scramblePerm img bs rand).getD g 0) default).w,
      ∀ v < ((extractBlocks img bs).getD ((scramblePerm img bs rand).getD g 0) default).h,
        (scrambleImage img bs rand).pix
            (blockLeft bs (gridCols img bs) g + u) (blockTop bs (gridCols img bs) g + v) =
          ((extractBlocks img bs).getD ((scramblePerm img bs rand).getD g 0) default).pix u v) ∧
    (∀ (scrb : Buffer) (perm : List Nat),
      perm.Perm (List.range (blockCount scrb bs)) →
      ∃ recon, reconstructBlocks perm (extractBlocks scrb bs) = .ok recon ∧
        ∀ k < perm.length,
          recon.getD (perm.getD k 0) none = some ((extractBlocks scrb bs).getD k default)) := by
  constructor
  · intro g hg u hu v hv
    rw [scrambleImage_eq_pasteFold, pasteFold_pix bs (gridCols img bs) hb _
      (fun p => extractBlocks_getD_w_le img bs _ hb)
      (fun p => extractBlocks_getD_h_le img bs _ hb)]
    have hwle := extractBlocks_getD_w_le img bs ((scramblePerm img bs rand).getD g 0) hb
    have hhle := extractBlocks_getD_h_le img bs ((scramblePerm img bs rand).getD g 0) hb
    have hcell : cellOf bs (gridCols img bs)
        (blockLeft bs (gridCols img bs) g + u) (blockTop bs (gridCols img bs) g + v) = g := by
      unfold cellOf blockLeft blockTop
      have hxd : (g % gridCols img bs * bs + u) / bs = g % gridCols img bs := by
        rw [div_eq_iff_stripe hb]
        have h5 : (g % gridCols img bs + 1) * bs = g % gridCols img bs * bs + bs := by ring
        omega
      have hyd : (g / gridCols img bs * bs + v) / bs = g / gridCols img bs := by
        rw [div_eq_iff_stripe hb]
        have h5 : (g / gridCols img bs + 1) * bs = g / gridCols img bs * bs + bs := by ring
        omega
      rw [hxd, hyd, Nat.mul_comm (g / gridCols img bs) (gridCols img bs)]
      have := Nat.div_add_mod g (gridCols img bs)
      omega
    rw [hcell]
    have hcover : pasteCover
        (fun p => (extractBlocks img bs).getD ((scramblePerm img bs rand).getD p 0) default)
        bs (gridCols img bs) g (blockLeft bs (gridCols img bs) g + u)
        (blockTop bs (gridCols img bs) g + v) := by
      refine ⟨Nat.le_add_right _ _, ?_, Nat.le_add_right _ _, ?_⟩
      · show blockLeft bs (gridCols img bs) g + u <
          blockLeft bs (gridCols img bs) g +
            ((extractBlocks img bs).getD ((scramblePerm img bs rand).getD g 0) default).w
        omega
      · show blockTop bs (gridCols img bs) g + v <
          blockTop bs (gridCols img bs) g +
            ((extractBlocks img bs).getD ((scramblePerm img bs rand).getD g 0) default).h
        omega
    rw [if_pos ⟨List.mem_range.mpr hg, hcover⟩, Nat.add_sub_cancel_left,
      Nat.add_sub_cancel_left]
  · intro scrb perm hperm
    have hlen : perm.length = (extractBlocks scrb bs).length := by
      rw [extractBlocks_length]
      simpa using hperm.length_eq
    have hvals : ∀ k < perm.length, perm.getD k 0 < (extractBlocks scrb bs).length := by
      intro k hk
      rw [extractBlocks_length]
      have hmem : perm.getD k 0 ∈ perm := by
        rw [List.getD_eq_getElem _ _ hk]
        exact List.getElem_mem _
      simpa using hperm.mem_iff.mp hmem
    obtain ⟨recon, hrec, hreclen⟩ := reconstructBlocks_ok perm (extractBlocks scrb bs) hvals
    have hnd : perm.Nodup := hperm.nodup_iff.mpr (List.nodup_range _)
    have hinj : ∀ k1 k2, k1 < perm.length → k2 < perm.length →
        perm.getD k1 0 = perm.getD k2 0 → k1 = k2 := by
      intro k1 k2 h1 h2 heq
      rw [List.getD_eq_getElem _ _ h1, List.getD_eq_getElem _ _ h2] at heq
      exact (List.Nodup.getElem_inj_iff hnd).mp heq
    obtain ⟨hfill, _⟩ := recon_fold_getD perm (extractBlocks scrb bs) hinj
      (List.range perm.length) (List.nodup_range _) (fun k hk => List.mem_range.mp hk)
      _ (List.length_replicate _ _) recon
      (by rw [← reconstructBlocks_eq_fold]; exact hrec)
    exact ⟨recon, hrec, fun k hk => hfill k (List.mem_range.mpr hk)⟩

/-- Witness for C2 at the 3×1 buffer, `block_size = 2`, shuffle `[0]`. -/
theorem C2_assignment_semantics_witness :
    0 < 2 ∧
    ((∀ g < blockCount tb3 2,
      ∀ u < ((extractBlocks tb3 2).getD ((scramblePerm tb3 2 [0]).getD g 0) default).w,
      ∀ v < ((extractBlocks tb3 2).getD ((scramblePerm tb3 2 [0]).getD g 0) default).h,
        (scrambleImage tb3 2 [0]).pix
            (blockLeft 2 (gridCols tb3 2) g + u) (blockTop 2 (gridCols tb3 2) g + v) =
          ((extractBlocks tb3 2).getD ((scramblePerm tb3 2 [0]).getD g 0) default).pix u v) ∧
    (∀ (scrb : Buffer) (perm : List Nat),
      perm.Perm (List.range (blockCount scrb 2)) →
      ∃ recon, reconstructBlocks perm (extractBlocks scrb 2) = .ok recon ∧
        ∀ k < perm.length,
          recon.getD (perm.getD k 0) none = some ((extractBlocks scrb 2).getD k default))) :=
  ⟨by decide, C2_assignment_semantics tb3 2 [0] (by decide)⟩

/-- C3: a permutation whose length differs from the block count
`cols * rows` of the scrambled buffer makes unscramble fail with the
key-size-mismatch error, producing no output buffer. -/
theorem C3_key_length_mismatch_rejected (scr : Buffer) (perm : List Nat) (bs : Int)
    (hbs : bs ≠ 0)
    (hlen : perm.length ≠ gridCols scr bs.toNat * gridRows scr bs.toNat) :
    block_unscramble scr perm bs = .error .keySizeMismatch := by
  have hc : perm.length ≠ (extractBlocks scr bs.toNat).length := by
    rw [extractBlocks_length]
    unfold blockCount
    rw [Nat.mul_comm]
    exact hlen
  unfold block_unscramble
  rw [if_neg hbs, if_pos hc]

/-- Witness for C3: a one-element key against a two-block image. -/
theorem C3_key_length_mismatch_rejected_witness :
    ((2 : Int) ≠ 0 ∧ [0].length ≠ gridCols tb3 (2 : Int).toNat * gridRows tb3 (2 : Int).toNat) ∧
    block_unscramble tb3 [0] 2 = .error .keySizeMismatch :=
  ⟨⟨by decide, by decide⟩, C3_key_length_mismatch_rejected tb3 [0] 2 (by decide) (by decide)⟩

/-- C4: for every block count `N` and every stream of random draws,
the shuffled index list `shuffle(list(range(N)))` is a bijection on
`[0, N)`: a permutation of `range N`, without repeats and without
omissions. -/
theorem C4_shuffle_is_bijection (N : Nat) (rand : List Nat) :
    (pyShuffle rand (List.range N)).Perm (List.range N) ∧
    (pyShuffle rand (List.range N)).Nodup ∧
    (∀ v ∈ pyShuffle rand (List.range N), v < N) ∧
    (∀ g < N, g ∈ pyShuffle rand (List.range N)) := by
  have hp := pyShuffle_perm rand (List.range N)
  refine ⟨hp, hp.nodup_iff.mpr (List.nodup_range N), ?_, ?_⟩
  · intro v hv
    exact List.mem_range.mp (hp.mem_iff.mp hv)
  · intro g hg
    exact hp.mem_iff.mpr (List.mem_range.mpr hg)

/-- C5: the grid is `cols = ceil(width / block_size)`,
`rows = ceil(height / block_size)` (stated with the exact rational
ceiling), every cell's rectangle is the clipped rectangle of the
specification with `col = g % cols`, `row = g / cols`, and the grid
computation depends only on the dimensions and the block size — so
scramble and unscramble (whose buffers have equal dimensions) compute
identical grids.  All quantities are values of pure functions, hence
deterministic. -/
theorem C5_grid_geometry (img : Buffer) (bs : Nat) (hb : 0 < bs)
    (hw : 0 < img.width) (hh : 0 < img.height) :
    ((gridCols img bs : Int) = ⌈(img.width : ℚ) / (bs : ℚ)⌉ ∧
     (gridRows img bs : Int) = ⌈(img.height : ℚ) / (bs : ℚ)⌉ ∧
     blockCount img bs = gridRows img bs * gridCols img bs) ∧
    (∀ g < blockCount img bs,
      blockLeft bs (gridCols img bs) g = g % gridCols img bs * bs ∧
      blockTop bs (gridCols img bs) g = g / gridCols img bs * bs ∧
      blockRight img.width bs (gridCols img bs) g =
        min ((g % gridCols img bs + 1) * bs) img.width ∧
      blockBottom img.height bs (gridCols img bs) g =
        min ((g / gridCols img bs + 1) * bs) img.height) ∧
    (∀ scr : Buffer, scr.width = img.width → scr.height = img.height →
      gridCols scr bs = gridCols img bs ∧ gridRows scr bs = gridRows img bs ∧
      blockCount scr bs = blockCount img bs) := by
  refine ⟨⟨ceilDiv_eq_rat_ceil img.width bs hb, ceilDiv_eq_rat_ceil img.height bs hb, rfl⟩,
    fun g _ => ⟨rfl, rfl, rfl, rfl⟩, ?_⟩
  intro scr hsw hsh
  have hgc : gridCols scr bs = gridCols img bs := by
    unfold gridCols
    rw [hsw]
  have hgr : gridRows scr bs = gridRows img bs := by
    unfold gridRows
    rw [hsh]
  refine ⟨hgc, hgr, ?_⟩
  unfold blockCount
  rw [hgc, hgr]

/-- Witness for C5 at the 3×1 buffer with `block_size = 2`. -/
theorem C5_grid_geometry_witness :
    (0 < 2 ∧ 0 < tb3.width ∧ 0 < tb3.height) ∧
    (((gridCols tb3 2 : Int) = ⌈(tb3.width : ℚ) / ((2 : Nat) : ℚ)⌉ ∧
     (gridRows tb3 2 : Int) = ⌈(tb3.height : ℚ) / ((2 : Nat) : ℚ)⌉ ∧
     blockCount tb3 2 = gridRows tb3 2 * gridCols tb3 2) ∧
    (∀ g < blockCount tb3 2,
      blockLeft 2 (gridCols tb3 2) g = g % gridCols tb3 2 * 2 ∧
      blockTop 2 (gridCols tb3 2) g = g / gridCols tb3 2 * 2 ∧
      blockRight tb3.width 2 (gridCols tb3 2) g =
        min ((g % gridCols tb3 2 + 1) * 2) tb3.width ∧
      blockBottom tb3.height 2 (gridCols tb3 2) g =
        min ((g / gridCols tb3 2 + 1) * 2) tb3.height) ∧
    (∀ scr : Buffer, scr.width = tb3.width → scr.height = tb3.height →
      gridCols scr 2 = gridCols tb3 2 ∧ gridRows scr 2 = gridRows tb3 2 ∧
      blockCount scr 2 = blockCount tb3 2)) :=
  ⟨⟨by decide, by decide, by decide⟩, C5_grid_geometry tb3 2 (by decide) (by decide) (by decide)⟩

/-- C6: when the block size does not divide the width or the height,
every cell rectangle is nonempty and clipped inside the buffer
bounds, and the rectangles tile the buffer exactly: each pixel of the
buffer lies in exactly one of the `BlockCount` rectangles. -/
theorem C6_ragged_tiling (img : Buffer) (bs : Nat) (hb : 0 < bs)
    (hw : 0 < img.width) (hh : 0 < img.height)
    (hragged : ¬ bs ∣ img.width ∨ ¬ bs ∣ img.height) :
    (∀ g < blockCount img bs,
      blockLeft bs (gridCols img bs) g < blockRight img.width bs (gridCols img bs) g ∧
      blockTop bs (gridCols img bs) g < blockBottom img.height bs (gridCols img bs) g ∧
      blockRight img.width bs (gridCols img bs) g ≤ img.width ∧
      blockBottom img.height bs (gridCols img bs) g ≤ img.height) ∧
    (∀ x < img.width, ∀ y < img.height, ∃! g, g < blockCount img bs ∧
      blockLeft bs (gridCols img bs) g ≤ x ∧
      x < blockRight img.width bs (gridCols img bs) g ∧
      blockTop bs (gridCols img bs) g ≤ y ∧
      y < blockBottom img.height bs (gridCols img bs) g) :=
  ⟨blockRect_in_bounds img bs hb hw hh,
    fun x hx y hy => blockRect_tiles img bs hb hx hy⟩

/-- Witness for C6 at the 3×1 buffer with `block_size = 2` (ragged:
`2` does not divide `3`). -/
theorem C6_ragged_tiling_witness :
    (0 < 2 ∧ 0 < tb3.width ∧ 0 < tb3.height ∧ (¬ 2 ∣ tb3.width ∨ ¬ 2 ∣ tb3.height)) ∧
    ((∀ g < blockCount tb3 2,
      blockLeft 2 (gridCols tb3 2) g < blockRight tb3.width 2 (gridCols tb3 2) g ∧
      blockTop 2 (gridCols tb3 2) g < blockBottom tb3.height 2 (gridCols tb3 2) g ∧
      blockRight tb3.width 2 (gridCols tb3 2) g ≤ tb3.width ∧
      blockBottom tb3.height 2 (gridCols tb3 2) g ≤ tb3.height) ∧
    (∀ x < tb3.width, ∀ y < tb3.height, ∃! g, g < blockCount tb3 2 ∧
      blockLeft 2 (gridCols tb3 2) g ≤ x ∧
      x < blockRight tb3.width 2 (gridCols tb3 2) g ∧
      blockTop 2 (gridCols tb3 2) g ≤ y ∧
      y < blockBottom tb3.height 2 (gridCols tb3 2) g)) :=
  ⟨⟨by decide, by decide, by decide, by decide⟩,
    C6_ragged_tiling tb3 2 (by decide) (by decide) (by decide) (by decide)⟩

/-- C7 counterexample: the claim states that scramble fails with
`InvalidBlockSize` for every `block_size ≤ 0`, before any work, with
no output.  In the source there is no such validation inside
`block_scramble` (only the interactive prompt loop re-asks): with
`block_size = -1` the grid is empty and the call succeeds, producing
a black output image and an empty key file; with `block_size = 0` it
dies with a `ZeroDivisionError` caught by the blanket handler. -/
theorem C7_counterexample_no_invalid_block_size :
    block_scramble tb3 (-1) [] = .ok (Buffer.new 3 1, []) ∧
    block_scramble tb3 0 [] = .error .zeroDivision :=
  ⟨rfl, rfl⟩

/-- C7 amended: for `block_size = 0`, scramble raises a division
error (caught by the generic handler; no output is produced); for
`block_size < 0` no failure happens at all — the grid is empty, so
scramble succeeds with an all-black buffer and an empty key.  No
`InvalidBlockSize` failure exists in `block_scramble`. -/
theorem C7_amended_nonpositive_block_size (img : Buffer) (bs : Int) (rand : List Nat)
    (hbs : bs ≤ 0) :
    (bs = 0 → block_scramble img bs rand = .error .zeroDivision) ∧
    (bs < 0 → block_scramble img bs rand = .ok (Buffer.new img.width img.height, [])) ∧
    block_scramble img bs rand ≠ .error .invalidBlockSize := by
  refine ⟨?_, ?_, ?_⟩
  · intro h0
    unfold block_scramble
    rw [if_pos h0]
  · intro hneg
    unfold block_scramble
    rw [if_neg (by omega), Int.toNat_of_nonpos (by omega),
      scrambleImage_zero, scramblePerm_zero]
  · unfold block_scramble
    split
    · simp
    · simp

/-- Witness for the amended C7 at `block_size = -1`. -/
theorem C7_amended_witness :
    ((-1 : Int) ≤ 0) ∧
    (((-1 : Int) = 0 → block_scramble tb3 (-1) [] = .error .zeroDivision) ∧
     ((-1 : Int) < 0 → block_scramble tb3 (-1) [] = .ok (Buffer.new tb3.width tb3.height, [])) ∧
     block_scramble tb3 (-1) [] ≠ .error .invalidBlockSize) :=
  ⟨by decide, C7_amended_nonpositive_block_size tb3 (-1) [] (by decide)⟩

/-- C8 counterexample: the claim states that compositing a block
whose shape differs from its target rectangle fails with
`ShapeMismatch`.  In the source, `paste` performs no shape check: on
the 3×1 buffer with `block_size = 2` and permutation `[1, 0]`, the
1×1 ragged block is pasted into the 2×1 cell `0` and the call
succeeds, leaving the uncovered pixel of the target rectangle black
(a partially filled rectangle) instead of failing. -/
theorem C8_counterexample_no_shape_mismatch :
    ((extractBlocks tb3 2).getD ((scramblePerm tb3 2 [0]).getD 0 0) default).w = 1 ∧
    blockRight tb3.width 2 (gridCols tb3 2) 0 - blockLeft 2 (gridCols tb3 2) 0 = 2 ∧
    block_scramble tb3 2 [0] = .ok (scrambleImage tb3 2 [0], scramblePerm tb3 2 [0]) ∧
    (scrambleImage tb3 2 [0]).pix 1 0 = 0 ∧ tb3.pix 1 0 = 11 :=
  ⟨rfl, rfl, rfl, rfl, rfl⟩

/-- C8 amended: compositing never fails on a shape mismatch.  For any
nonzero block size, scramble always returns a buffer (a pasted block
is written at the cell's top-left corner, clipped at the buffer
bounds, and a too-small block simply leaves part of its target
rectangle unwritten), and neither operation can ever produce a
`ShapeMismatch` error. -/
theorem C8_amended_paste_never_fails (img : Buffer) (bs : Int) (rand : List Nat)
    (hbs : bs ≠ 0) (scr : Buffer) (perm : List Nat) :
    (∃ p, block_scramble img bs rand = .ok p) ∧
    block_scramble img bs rand ≠ .error .shapeMismatch ∧
    block_unscramble scr perm bs ≠ .error .shapeMismatch := by
  refine ⟨?_, ?_, ?_⟩
  · unfold block_scramble
    rw [if_neg hbs]
    exact ⟨_, rfl⟩
  · unfold block_scramble
    rw [if_neg hbs]
    simp
  · intro hcontra
    rcases block_unscramble_error_cases scr perm bs _ hcontra with h | h | h | h <;>
      exact absurd h (by decide)

/-- Witness for the amended C8 at the 3×1 buffer, `block_size = 2`. -/
theorem C8_amended_witness :
    ((2 : Int) ≠ 0) ∧
    ((∃ p, block_scramble tb3 2 [0] = .ok p) ∧
     block_scramble tb3 2 [0] ≠ .error .shapeMismatch ∧
     block_unscramble tb3 [] 2 ≠ .error .shapeMismatch) :=
  ⟨by decide, C8_amended_paste_never_fails tb3 2 [0] (by decide) tb3 []⟩

/-- C9: unscramble validates only the length of the key.  For any
permutation of the correct length whose values are in range but which
contains duplicates, the key is not rejected: the length check
passes (no `KeySizeMismatch`) and the reconstruction loop runs to
completion. -/
theorem C9_no_bijectivity_check (scr : Buffer) (perm : List Nat) (bs : Int)
    (hbs : bs ≠ 0)
    (hlen : perm.length = blockCount scr bs.toNat)
    (hvals : ∀ v ∈ perm, v < blockCount scr bs.toNat)
    (hdup : ¬ perm.Nodup) :
    block_unscramble scr perm bs ≠ .error .keySizeMismatch ∧
    ∃ recon, reconstructBlocks perm (extractBlocks scr bs.toNat) = .ok recon := by
  have hlen' : perm.length = (extractBlocks scr bs.toNat).length := by
    rw [extractBlocks_length]
    exact hlen
  have hvals' : ∀ k < perm.length, perm.getD k 0 < (extractBlocks scr bs.toNat).length := by
    intro k hk
    rw [extractBlocks_length]
    refine hvals _ ?_
    rw [List.getD_eq_getElem _ _ hk]
    exact List.getElem_mem _
  obtain ⟨recon, hrec, _⟩ := reconstructBlocks_ok perm (extractBlocks scr bs.toNat) hvals'
  refine ⟨?_, recon, hrec⟩
  rw [block_unscramble_nz scr perm bs hbs hlen', hrec]
  intro hcontra
  have hc2 : compositeBlocks (Buffer.new scr.width scr.height) recon bs.toNat
      (gridCols scr bs.toNat) (blockCount scr bs.toNat) = .error .keySizeMismatch := hcontra
  rw [compositeBlocks_eq_fold] at hc2
  exact absurd (comp_fold_error _ _ _ _ _ _ hc2) (by decide)

/-- Witness for C9: the duplicate key `[0, 0]` against the 4×2 buffer
with two blocks. -/
theorem C9_no_bijectivity_check_witness :
    ((2 : Int) ≠ 0 ∧ [0, 0].length = blockCount tb4 (2 : Int).toNat ∧
      (∀ v ∈ [0, 0], v < blockCount tb4 (2 : Int).toNat) ∧ ¬ ([0, 0] : List Nat).Nodup) ∧
    (block_unscramble tb4 [0, 0] 2 ≠ .error .keySizeMismatch ∧
     ∃ recon, reconstructBlocks [0, 0] (extractBlocks tb4 (2 : Int).toNat) = .ok recon) :=
  ⟨⟨by decide, by decide, by decide, by decide⟩,
    C9_no_bijectivity_check tb4 [0, 0] 2 (by decide) (by decide) (by decide) (by decide)⟩

/-- C10: with a block size that divides both dimensions, every block
is exactly `block_size × block_size`, every paste exactly fills its
target rectangle, and the round trip is the identity: for every
buffer, every dividing `block_size ≥ 1`, and every shuffle outcome,
unscrambling the scrambled buffer with the key produced by the
scramble returns the original buffer pixel-for-pixel. -/
theorem C10_roundtrip_divisible (img : Buffer) (bs : Nat) (rand : List Nat)
    (hb : 0 < bs) (hw : bs ∣ img.width) (hh : bs ∣ img.height) :
    ∃ scr perm out,
      block_scramble img (bs : Int) rand = .ok (scr, perm) ∧
      block_unscramble scr perm (bs : Int) = .ok out ∧ out.eqOn img := by
  obtain ⟨out, h1, h2⟩ := roundtrip_dvd img bs rand hb hw hh
  exact ⟨_, _, out, block_scramble_pos img bs rand hb, h1, h2⟩

/-- Witness for C10: the 4×2 buffer, `block_size = 2`, the shuffle
that swaps the two blocks. -/
theorem C10_roundtrip_divisible_witness :
    (0 < 2 ∧ 2 ∣ tb4.width ∧ 2 ∣ tb4.height) ∧
    (∃ scr perm out,
      block_scramble tb4 ((2 : Nat) : Int) [0] = .ok (scr, perm) ∧
      block_unscramble scr perm ((2 : Nat) : Int) = .ok out ∧ out.eqOn tb4) :=
  ⟨⟨by decide, by decide, by decide⟩,
    C10_roundtrip_divisible tb4 2 [0] (by decide) (by decide) (by decide)⟩
